import Mathlib

/-!
# Admission webhook decision engine (`webhook.go`)

A shallow embedding of `webhook.go` (`serve`, `mutate`, `validate`,
`createPatch`, `updateAnnotation`) together with theorems about it.

Modelling conventions.

* Go strings are `String`; `[]byte` is `Bytes` (a list of octets); a nil slice
  or nil pointer in an optional position is `none`.
* A Go `map[string]string` is an `Option StrMap`: `none` is the nil map and
  `some es` a non-nil map whose entries are `es`.  Indexing follows Go: a
  missing key (or a nil map) yields the zero value `""`, and the comma-ok form
  additionally reports presence.
* `encoding/json` is a library, not part of the repository, and is taken as a
  parameter (`Json`).  `json.Unmarshal` may fail with an error text.
  `json.Marshal` is applied only to a `[]patchOperation` whose `Value` is a
  `string` or a `map[string]string`, for which it has no failing case, so it is
  a total function; `createPatch` still returns the `([]byte, error)` pair and
  `mutate` still tests it, as the source does.
* The envelope decoder, the envelope encoder and the response writer used by
  `serve` are libraries as well (`Env`).  `deserializer.Decode` fills the
  caller's `ar` in place, so the model lets it return the contents of `ar`
  together with the error, if any.
* Logging (`ws.log`) has no influence on any returned value and is left out.
* Dereferencing a nil `*AdmissionRequest` is a run-time fault, modelled by
  `Except Fault`.
-/

namespace Webhook

/-! ## Data model -/

/-- Octet sequences (`[]byte`). -/
abbrev Bytes := List UInt8

/-- Entries of a non-nil `map[string]string`. -/
abbrev StrMap := List (String × String)

/-- Value stored under `k` among the entries, if any. -/
def entriesLookup : StrMap → String → Option String
  | [], _ => none
  | (k', v) :: rest, k => if k' = k then some v else entriesLookup rest k

/-- Comma-ok lookup `v, ok := m[k]` on a possibly nil map, as an option. -/
def mapLookup (m : Option StrMap) (k : String) : Option String :=
  match m with
  | none => none
  | some es => entriesLookup es k

/-- Plain index expression `m[k]`: the zero value `""` when the key is missing. -/
def mapIndex (m : Option StrMap) (k : String) : String :=
  (mapLookup m k).getD ""

/-- Fields of `metav1.OwnerReference` that identify the owner. -/
structure OwnerReference where
  APIVersion : String := ""
  Kind : String := ""
  Name : String := ""
  UID : String := ""
  deriving DecidableEq, Repr

/-- Fields of `metav1.ObjectMeta` carried by the model. -/
structure ObjectMeta where
  Name : String := ""
  Namespace : String := ""
  Labels : Option StrMap := none
  Annotations : Option StrMap := none
  OwnerReferences : List OwnerReference := []
  deriving DecidableEq, Repr

/-- Decoded workload, `appsv1.Deployment`: its metadata and replica count. -/
structure Deployment where
  ObjectMeta : ObjectMeta := {}
  Replicas : Option Int := none
  deriving DecidableEq, Repr

/-- Dynamic `interface{}` payload of a patch operation: a map or a scalar. -/
inductive PatchValue where
  | map (m : StrMap)
  | scalar (s : String)
  deriving DecidableEq, Repr

/-- Mirror of `type patchOperation struct`. -/
structure patchOperation where
  Op : String
  Path : String
  Value : PatchValue
  deriving DecidableEq, Repr

/-- Fields of `metav1.Status` written by the deciders. -/
structure Status where
  Message : String := ""
  Reason : String := ""
  deriving DecidableEq, Repr

/-- Mirror of `metav1.GroupVersionKind`. -/
structure GroupVersionKind where
  Group : String := ""
  Version : String := ""
  Kind : String := ""
  deriving DecidableEq, Repr

/-- Mirror of `runtime.RawExtension`: the serialized object. -/
structure RawExtension where
  Raw : Bytes := []
  deriving DecidableEq, Repr

/-- Fields of `admissionv1.AdmissionRequest` read by the webhook. -/
structure AdmissionRequest where
  UID : String := ""
  Kind : GroupVersionKind := {}
  Operation : String := ""
  Namespace : String := ""
  Name : String := ""
  Object : RawExtension := {}
  deriving DecidableEq, Repr

/-- Mirror of `admissionv1.AdmissionResponse`; every field has Go's zero value
unless set. -/
structure AdmissionResponse where
  UID : String := ""
  Allowed : Bool := false
  Result : Option Status := none
  Patch : Option Bytes := none
  PatchType : Option String := none
  deriving DecidableEq, Repr

/-- Mirror of `admissionv1.AdmissionReview`: both members are pointers. -/
structure AdmissionReview where
  Request : Option AdmissionRequest := none
  Response : Option AdmissionResponse := none
  deriving DecidableEq, Repr

/-- Run-time faults of the Go program. -/
inductive Fault where
  | nilPointerDereference
  deriving DecidableEq, Repr

deriving instance DecidableEq for Except

/-- Library `encoding/json`, as used by the webhook. -/
structure Json where
  /-- Behaviour of `json.Unmarshal(raw, &deployment)`: the decoded workload, or
  the error text. -/
  Unmarshal : Bytes → Except String Deployment
  /-- Behaviour of `json.Marshal(patch)` on a `[]patchOperation`. -/
  Marshal : List patchOperation → Bytes

/-! ## Constants -/

/-- Constant `admissionWebhookAnnotationMutateKey`. -/
def admissionWebhookAnnotationMutateKey : String := "deployment-create-by-uniteddeployment"

/-- Constant `admissionv1.Create`. -/
def Create : String := "CREATE"

/-- Constant `admissionv1.Update`. -/
def Update : String := "UPDATE"

/-- Constant `admissionv1.PatchTypeJSONPatch`. -/
def PatchTypeJSONPatch : String := "JSONPatch"

/-! ## The program -/

/-- Body of `for key, value := range added` in `updateAnnotation`, run over the
entries of `added` in iteration order.  The loop carries the local `target`
(reassigned to an empty map in the first branch) and the accumulated `patch`. -/
def updateAnnotationLoop : Option StrMap → List (String × String) →
    List patchOperation → List patchOperation
  | _, [], patch => patch
  | target, (key, value) :: rest, patch =>
    if target = none ∨ mapIndex target key = "" then
      updateAnnotationLoop (some []) rest
        (patch ++ [{ Op := "add", Path := "/metadata/annotations",
                     Value := PatchValue.map [(key, value)] }])
    else
      updateAnnotationLoop target rest
        (patch ++ [{ Op := "replace", Path := "/metadata/annotations/" ++ key,
                     Value := PatchValue.scalar value }])

/-- Function `updateAnnotation(target, added)`.  The map `added` is given as the
list of its entries in the order the `range` loop visits them. -/
def updateAnnotation (target : Option StrMap) (added : List (String × String)) :
    List patchOperation :=
  updateAnnotationLoop target added []

/-- Function `createPatch(availableAnnotations, annotations)`. -/
def createPatch (J : Json) (availableAnnotations : Option StrMap)
    (annotations : List (String × String)) : Except String Bytes :=
  let patch : List patchOperation := [] ++ updateAnnotation availableAnnotations annotations
  Except.ok (J.Marshal patch)

/-- Owner scan shared by both deciders: the value of `temp` after
`for _, owner := range deployment.OwnerReferences` with its `break`. -/
def ownerScan : List OwnerReference → Bool
  | [] => false
  | owner :: rest => if owner.Kind = "UnitedDeployment" then true else ownerScan rest

/-- Method `(*WebhookServer).mutate`. -/
def mutate (J : Json) (ar : AdmissionReview) : Except Fault AdmissionResponse :=
  match ar.Request with
  | none => Except.error Fault.nilPointerDereference
  | some req =>
    if req.Operation ≠ Create ∧ req.Operation ≠ Update then
      Except.ok { Allowed := true }
    else if req.Kind.Kind ≠ "Deployment" then
      Except.ok { Allowed := true }
    else
      match J.Unmarshal req.Object.Raw with
      | Except.error err => Except.ok { Result := some { Message := err } }
      | Except.ok deployment =>
        let temp := ownerScan deployment.ObjectMeta.OwnerReferences
        if temp then
          let availableAnnotations := deployment.ObjectMeta.Annotations
          let annotations := [(admissionWebhookAnnotationMutateKey, "true")]
          match createPatch J availableAnnotations annotations with
          | Except.error err => Except.ok { Result := some { Message := err } }
          | Except.ok patchBytes =>
            Except.ok { Allowed := true, Patch := some patchBytes,
                        PatchType := some PatchTypeJSONPatch }
        else
          Except.ok { Allowed := true }

/-- Method `(*WebhookServer).validate`. -/
def validate (J : Json) (ar : AdmissionReview) : Except Fault AdmissionResponse :=
  match ar.Request with
  | none => Except.error Fault.nilPointerDereference
  | some req =>
    if req.Kind.Kind ≠ "Deployment" then
      Except.ok { Allowed := true }
    else
      match J.Unmarshal req.Object.Raw with
      | Except.error err => Except.ok { Result := some { Message := err } }
      | Except.ok deployment =>
        let temp := ownerScan deployment.ObjectMeta.OwnerReferences
        if temp then
          let availableAnnotations := deployment.ObjectMeta.Annotations
          match mapLookup availableAnnotations admissionWebhookAnnotationMutateKey with
          | none =>
            Except.ok { Allowed := false,
                        Result := some { Reason := "required annotation are not set" } }
          | some _ => Except.ok { Allowed := true, Result := none }
        else
          Except.ok { Allowed := true, Result := none }

/-! ### The HTTP handler

`serve` talks to its surroundings through libraries.  They are parameters of
the model, collected in `Env`; the handler's own control flow is the source's. -/

/-- Part of `*http.Request` read by `serve`. -/
structure HttpRequest where
  /-- Member `r.Body`: `none` when nil, otherwise what `ioutil.ReadAll` returns for
  it (the data, or an error text). -/
  Body : Option (Except String Bytes) := none
  /-- Value of `r.Header.Get("Content-Type")`. -/
  ContentType : String := ""
  /-- Value of `r.URL.Path`. -/
  Path : String := ""

/-- Calls `serve` makes on its `http.ResponseWriter`, in order. -/
inductive WriterCall where
  /-- Call `http.Error(w, msg, code)`. -/
  | error (msg : String) (code : Nat)
  /-- Call `w.Write(data)`. -/
  | write (data : Bytes)
  deriving DecidableEq, Repr

/-- Libraries used by `serve`. -/
structure Env where
  /-- Library `encoding/json` on workloads and patches, for the deciders. -/
  json : Json
  /-- Behaviour of `deserializer.Decode(body, nil, &ar)` on a zero `ar`: the
  contents of `ar` after the call, and the error text if the call failed.  The
  decoder writes into the caller's `ar`, so what `ar` holds after a failed call is
  the decoder's business, not the handler's; `serve` reads `ar.Request` after
  either outcome. -/
  Decode : Bytes → AdmissionReview × Option String
  /-- Behaviour of `json.Marshal(admissionReview)`. -/
  MarshalReview : AdmissionReview → Except String Bytes
  /-- Error returned by `w.Write(resp)`, if any. -/
  WriteError : Bytes → Option String

/-- Constant `http.StatusBadRequest`. -/
def StatusBadRequest : Nat := 400

/-- Constant `http.StatusUnsupportedMediaType`. -/
def StatusUnsupportedMediaType : Nat := 415

/-- Constant `http.StatusInternalServerError`. -/
def StatusInternalServerError : Nat := 500

/-- Tail of `serve` (from `resp, err := json.Marshal(admissionReview)` to the
end): the writer calls made for the outgoing envelope `admissionReview`.  A
failed encoding is reported and, as the source does not return there, the nil
`resp` is written all the same. -/
def transmit (env : Env) (admissionReview : AdmissionReview) : List WriterCall :=
  let encoded : Bytes × List WriterCall :=
    match env.MarshalReview admissionReview with
    | Except.error err =>
      ([], [WriterCall.error ("could not encode response: " ++ err) StatusInternalServerError])
    | Except.ok resp => (resp, [])
  let resp := encoded.1
  match env.WriteError resp with
  | some err =>
    encoded.2 ++ [WriterCall.write resp,
      WriterCall.error ("could not write response: " ++ err) StatusInternalServerError]
  | none => encoded.2 ++ [WriterCall.write resp]

/-- Method `(*WebhookServer).serve`: the calls made on the response writer, or
the fault that stops the handler. -/
def serve (env : Env) (r : HttpRequest) : Except Fault (List WriterCall) :=
  let body : Bytes :=
    match r.Body with
    | some (Except.ok data) => data
    | _ => []
  if body.length = 0 then
    Except.ok [WriterCall.error "empty body" StatusBadRequest]
  else
    let contentType := r.ContentType
    if contentType ≠ "application/json" then
      Except.ok [WriterCall.error "invalid Content-Type, expect `application/json`"
        StatusUnsupportedMediaType]
    else
      let decoded := env.Decode body
      let ar := decoded.1
      let decision : Except Fault (Option AdmissionResponse) :=
        match decoded.2 with
        | some err => Except.ok (some { Result := some { Message := err } })
        | none =>
          if r.Path = "/mutate" then (mutate env.json ar).map some
          else if r.Path = "/validate" then (validate env.json ar).map some
          else Except.ok none
      match decision with
      | Except.error fault => Except.error fault
      | Except.ok admissionResponse =>
        let admissionReview : AdmissionReview :=
          match admissionResponse with
          | none => {}
          | some response =>
            match ar.Request with
            | some req => { Response := some { response with UID := req.UID } }
            | none => { Response := some response }
        Except.ok (transmit env admissionReview)

/-! ## JSON Patch application (RFC 6902) on the annotation map

The patch returned by `mutate` is applied by the API server, not by the
webhook.  The definitions below give the RFC 6902 meaning of `add` and
`replace` at the two kinds of location the webhook emits: the member
`/metadata/annotations` and a member `/metadata/annotations/<token>` beneath it,
with `<token>` read by the JSON Pointer rules of RFC 6901.  Other operations and
other locations are outside this model and yield `none`. -/

/-- Reference tokens of a JSON Pointer after its leading slash: the characters
between consecutive slashes. -/
def splitSlash : List Char → List (List Char)
  | [] => [[]]
  | c :: cs =>
    if c = '/' then [] :: splitSlash cs
    else
      match splitSlash cs with
      | [] => [[c]]
      | t :: ts => (c :: t) :: ts

/-- RFC 6901 unescaping of one reference token: "~1" is a slash and "~0" a tilde. -/
def unescapeToken : List Char → List Char
  | [] => []
  | [c] => [c]
  | c :: d :: cs =>
    if c = '~' ∧ d = '1' then '/' :: unescapeToken cs
    else if c = '~' ∧ d = '0' then '~' :: unescapeToken cs
    else c :: unescapeToken (d :: cs)

/-- Reference tokens of a JSON Pointer; `none` when the text is not a pointer. -/
def parsePointer (p : String) : Option (List String) :=
  match p.data with
  | [] => some []
  | c :: cs =>
    if c = '/' then some ((splitSlash cs).map (fun t => String.mk (unescapeToken t)))
    else none

/-- Locations of a workload document covered by the model. -/
inductive Location where
  | annotations
  | annotationKey (k : String)
  deriving DecidableEq, Repr

/-- Location denoted by a path, when it is the annotation map or a member of it. -/
def resolveLocation (path : String) : Option Location :=
  match parsePointer path with
  | some [a, b] =>
    if a = "metadata" ∧ b = "annotations" then some Location.annotations else none
  | some [a, b, k] =>
    if a = "metadata" ∧ b = "annotations" then some (Location.annotationKey k) else none
  | _ => none

/-- Entries with the value under `k` set to `v` wherever `k` occurs. -/
def entriesReplace : StrMap → String → String → StrMap
  | [], _, _ => []
  | (k', v') :: rest, k, v =>
    (k', if k' = k then v else v') :: entriesReplace rest k v

/-- Entries with `k` bound to `v`: replaced when present, appended otherwise. -/
def entriesSet (es : StrMap) (k v : String) : StrMap :=
  if (entriesLookup es k).isSome then entriesReplace es k v else es ++ [(k, v)]

/-- Workload with its annotation map replaced. -/
def Deployment.withAnnotations (d : Deployment) (m : Option StrMap) : Deployment :=
  { d with ObjectMeta := { d.ObjectMeta with Annotations := m } }

/-- One RFC 6902 operation applied to a workload.  `add` creates or replaces the
member it names (its parent must exist); `replace` requires the member to exist.
A value of the wrong shape for the location (a scalar for the whole map, a map
for one annotation) gives a document that is no workload, hence `none`. -/
def applyOperation (d : Deployment) (op : patchOperation) : Option Deployment :=
  match resolveLocation op.Path with
  | none => none
  | some Location.annotations =>
    match op.Value with
    | PatchValue.scalar _ => none
    | PatchValue.map m =>
      if op.Op = "add" then some (d.withAnnotations (some m))
      else if op.Op = "replace" then
        (if d.ObjectMeta.Annotations.isSome then some (d.withAnnotations (some m)) else none)
      else none
  | some (Location.annotationKey k) =>
    match op.Value, d.ObjectMeta.Annotations with
    | PatchValue.scalar v, some es =>
      if op.Op = "add" then some (d.withAnnotations (some (entriesSet es k v)))
      else if op.Op = "replace" then
        (if (entriesLookup es k).isSome then
          some (d.withAnnotations (some (entriesReplace es k v)))
        else none)
      else none
    | _, _ => none

/-- A JSON Patch document applied operation by operation; it fails as soon as
one operation fails. -/
def applyPatch : List patchOperation → Deployment → Option Deployment
  | [], d => some d
  | op :: rest, d =>
    match applyOperation d op with
    | none => none
    | some d' => applyPatch rest d'

/-! ## A concrete codec and concrete requests

A small instance of `Json` on which the deciders can be evaluated. -/

/-- Workload owned by a UnitedDeployment, with a nil annotation map. -/
def ownedBare : Deployment :=
  { ObjectMeta := { Name := "web", Namespace := "default",
                    OwnerReferences := [{ APIVersion := "apps.kruise.io/v1alpha1",
                                          Kind := "UnitedDeployment", Name := "ud", UID := "u-1" }] } }

/-- Workload owned by a UnitedDeployment whose marker annotation holds "stale". -/
def ownedMarked : Deployment :=
  ownedBare.withAnnotations
    (some [("team", "core"), (admissionWebhookAnnotationMutateKey, "stale")])

/-- Workload owned by a UnitedDeployment whose marker annotation is empty. -/
def ownedMarkedEmpty : Deployment :=
  ownedBare.withAnnotations (some [(admissionWebhookAnnotationMutateKey, "")])

/-- Workload owned by a UnitedDeployment with annotations but no marker. -/
def ownedUnmarked : Deployment :=
  ownedBare.withAnnotations (some [("team", "core")])

/-- Workload owned by a ReplicaSet only, carrying one annotation. -/
def foreignDeployment : Deployment :=
  { ObjectMeta := { Name := "web", Namespace := "default",
                    Annotations := some [("team", "core")],
                    OwnerReferences := [{ APIVersion := "apps/v1", Kind := "ReplicaSet",
                                          Name := "rs", UID := "u-2" }] } }

/-- Decoder of the concrete codec: a one-octet body selects a workload, any
other body is rejected. -/
def sampleUnmarshal (raw : Bytes) : Except String Deployment :=
  if raw = [0] then Except.ok ownedBare
  else if raw = [1] then Except.ok ownedMarked
  else if raw = [2] then Except.ok ownedMarkedEmpty
  else if raw = [3] then Except.ok ownedUnmarked
  else if raw = [4] then Except.ok foreignDeployment
  else if raw = [5] then
    Except.ok (ownedBare.withAnnotations (some [(admissionWebhookAnnotationMutateKey, "true")]))
  else if raw = [6] then
    Except.ok (ownedBare.withAnnotations
      (some [("team", "core"), (admissionWebhookAnnotationMutateKey, "true")]))
  else Except.error "unexpected end of JSON input"

/-- Text of one patch operation in the concrete codec. -/
def sampleRender (op : patchOperation) : String :=
  op.Op ++ " " ++ op.Path ++ " " ++
    (match op.Value with
     | PatchValue.scalar s => s
     | PatchValue.map m => String.intercalate "," (m.map (fun e => e.1 ++ "=" ++ e.2)))

/-- Concrete codec. -/
def sampleJson : Json :=
  { Unmarshal := sampleUnmarshal,
    Marshal := fun ops => (String.intercalate ";" (ops.map sampleRender)).toUTF8.toList }

/-- Review carrying a request with the given operation, kind and body. -/
def sampleReview (operation kind : String) (raw : Bytes) : AdmissionReview :=
  { Request := some { UID := "705ab4f5", Kind := { Group := "apps", Version := "v1", Kind := kind },
                      Operation := operation, Namespace := "default", Name := "web",
                      Object := { Raw := raw } } }

/-- Octets of an ASCII text. -/
def ascii (s : String) : Bytes :=
  s.data.map (fun c => UInt8.ofNat c.toNat)

/-- Envelope decoder of the concrete environment.  Bodies [10] to [13] decode to
reviews; the JSON text whose `response` member is a number fails with a type
error after its `request` member has been stored; everything else fails and
leaves the review untouched. -/
def sampleDecode (body : Bytes) : AdmissionReview × Option String :=
  if body = [10] then (sampleReview "CREATE" "Deployment" [0], none)
  else if body = [11] then (sampleReview "UPDATE" "Deployment" [1], none)
  else if body = [12] then (sampleReview "CREATE" "Deployment" [9], none)
  else if body = [13] then ({}, none)
  else if body = ascii "\x7b\"request\":\x7b\"uid\":\"705ab4f5\"\x7d,\"response\":5\x7d" then
    ({ Request := some { UID := "705ab4f5" } },
     some "json: cannot unmarshal number into Go struct field AdmissionReview.response of type v1.AdmissionResponse")
  else ({}, some "couldn't get version/kind; json parse error: unexpected end of JSON input")

/-- Concrete environment: the concrete codec, the decoder above, an envelope
encoder that writes the response's correlation identifier, and a writer that
never fails. -/
def sampleEnv : Env :=
  { json := sampleJson,
    Decode := sampleDecode,
    MarshalReview := fun review =>
      Except.ok (ascii (match review.Response with
                        | some response => "response " ++ response.UID
                        | none => "empty")),
    WriteError := fun _ => none }

/-- Request posted with content type `application/json` on the given path. -/
def samplePost (path : String) (body : Bytes) : HttpRequest :=
  { Body := some (Except.ok body), ContentType := "application/json", Path := path }

/-! ## The synthesizer and the path format as the specification words them

Two definitions that follow the specification's text, for comparison with
`updateAnnotation`. -/

/-- Per-key rule of the specification: against the caller's `current`, a key that
is absent or empty-valued (or any key when `current` is absent) gives an `add`
of the singleton map at the annotation-map location, and a key present with a
non-empty value gives a `replace` of that key. -/
def specOperation (current : Option StrMap) (key value : String) : patchOperation :=
  if current = none ∨ mapIndex current key = "" then
    { Op := "add", Path := "/metadata/annotations", Value := PatchValue.map [(key, value)] }
  else
    { Op := "replace", Path := "/metadata/annotations/" ++ key,
      Value := PatchValue.scalar value }

/-- Specification of the synthesizer: the per-key rule for each addition, in
iteration order. -/
def specSynthesize (current : Option StrMap) (additions : List (String × String)) :
    List patchOperation :=
  additions.map (fun e => specOperation current e.1 e.2)

/-- JSON Pointer escaping of a reference token (RFC 6901): a tilde is written
"~0" and a slash "~1". -/
def escapeToken : List Char → List Char
  | [] => []
  | c :: cs =>
    if c = '~' then '~' :: '0' :: escapeToken cs
    else if c = '/' then '~' :: '1' :: escapeToken cs
    else c :: escapeToken cs

/-- Path of one annotation key with the key escaped per JSON Pointer rules. -/
def escapedKeyPath (key : String) : String :=
  "/metadata/annotations/" ++ String.mk (escapeToken key.data)

/-! ## Basic facts -/

theorem ownerScan_eq_true_iff (owners : List OwnerReference) :
    ownerScan owners = true ↔ ∃ o ∈ owners, o.Kind = "UnitedDeployment" := by
  induction owners with
  | nil => simp [ownerScan]
  | cons o rest ih =>
    by_cases h : o.Kind = "UnitedDeployment"
    · simp [ownerScan, h]
    · simp [ownerScan, h, ih]

theorem ownerScan_eq_false_iff (owners : List OwnerReference) :
    ownerScan owners = false ↔ ∀ o ∈ owners, o.Kind ≠ "UnitedDeployment" := by
  rw [← Bool.not_eq_true, ownerScan_eq_true_iff]
  simp

theorem mapLookup_isSome_iff (m : Option StrMap) (k : String) :
    (mapLookup m k).isSome = true ↔ ∃ v, mapLookup m k = some v := by
  cases h : mapLookup m k <;> simp

/-- The patch computed for the single marker annotation, by cases on the marker's
current value: a whole-map `add` when the map is nil or the marker is missing or
empty, a `replace` of the marker otherwise. -/
theorem updateAnnotation_marker (target : Option StrMap) :
    updateAnnotation target [(admissionWebhookAnnotationMutateKey, "true")] =
      if target = none ∨ mapIndex target admissionWebhookAnnotationMutateKey = "" then
        [{ Op := "add", Path := "/metadata/annotations",
           Value := PatchValue.map [(admissionWebhookAnnotationMutateKey, "true")] }]
      else
        [{ Op := "replace",
           Path := "/metadata/annotations/" ++ admissionWebhookAnnotationMutateKey,
           Value := PatchValue.scalar "true" }] := by
  unfold updateAnnotation
  by_cases h : target = none ∨ mapIndex target admissionWebhookAnnotationMutateKey = ""
  · simp [updateAnnotationLoop, h]
  · simp [updateAnnotationLoop, h]

/-- What `mutate` returns for a Create or Update of a Deployment whose body
decodes to a workload owned by a UnitedDeployment. -/
theorem mutate_owned (J : Json) (ar : AdmissionReview) (req : AdmissionRequest)
    (D : Deployment) (hreq : ar.Request = some req)
    (hop : req.Operation = Create ∨ req.Operation = Update)
    (hkind : req.Kind.Kind = "Deployment")
    (hbody : J.Unmarshal req.Object.Raw = Except.ok D)
    (hown : ∃ o ∈ D.ObjectMeta.OwnerReferences, o.Kind = "UnitedDeployment") :
    mutate J ar = Except.ok
      { Allowed := true,
        Patch := some (J.Marshal ( updateAnnotation D.ObjectMeta.Annotations
          [(admissionWebhookAnnotationMutateKey, "true")])),
        PatchType := some PatchTypeJSONPatch } := by
  have hscan := (ownerScan_eq_true_iff _).2 hown
  have hop' : ¬ (req.Operation ≠ Create ∧ req.Operation ≠ Update) := by
    rcases hop with h | h <;> simp [h]
  simp only [mutate, hreq, hop', hkind, hbody, hscan, createPatch]
  simp

/-- What `validate` returns for a Deployment whose body decodes to a workload
owned by a UnitedDeployment. -/
theorem validate_owned (J : Json) (ar : AdmissionReview) (req : AdmissionRequest)
    (D : Deployment) (hreq : ar.Request = some req)
    (hkind : req.Kind.Kind = "Deployment")
    (hbody : J.Unmarshal req.Object.Raw = Except.ok D)
    (hown : ∃ o ∈ D.ObjectMeta.OwnerReferences, o.Kind = "UnitedDeployment") :
    validate J ar = Except.ok
      (match mapLookup D.ObjectMeta.Annotations admissionWebhookAnnotationMutateKey with
       | none => { Allowed := false,
                   Result := some { Reason := "required annotation are not set" } }
       | some _ => { Allowed := true, Result := none }) := by
  have hscan := (ownerScan_eq_true_iff _).2 hown
  simp only [validate, hreq, hkind, hbody, hscan]
  cases mapLookup D.ObjectMeta.Annotations admissionWebhookAnnotationMutateKey <;> simp

theorem resolveLocation_annotations :
    resolveLocation "/metadata/annotations" = some Location.annotations := by
  decide

theorem resolveLocation_marker :
    resolveLocation ("/metadata/annotations/" ++ admissionWebhookAnnotationMutateKey) =
      some (Location.annotationKey admissionWebhookAnnotationMutateKey) := by
  decide

theorem entriesLookup_entriesReplace (es : StrMap) (k v : String) :
    entriesLookup (entriesReplace es k v) k = (entriesLookup es k).map (fun _ => v) := by
  induction es with
  | nil => simp [entriesReplace, entriesLookup]
  | cons e rest ih =>
    obtain ⟨k', v'⟩ := e
    by_cases h : k' = k
    · simp [entriesReplace, entriesLookup, h]
    · simp [entriesReplace, entriesLookup, h, ih]

theorem entriesReplace_idem (es : StrMap) (k v : String) :
    entriesReplace (entriesReplace es k v) k v = entriesReplace es k v := by
  induction es with
  | nil => simp [entriesReplace]
  | cons e rest ih =>
    obtain ⟨k', v'⟩ := e
    by_cases h : k' = k
    · simp [entriesReplace, h, ih]
    · simp [entriesReplace, h, ih]

/-- Applying the patch synthesized for the marker always succeeds, keeps the
owner references, leaves the marker bound to "true", and the resulting workload
is a fixed point of the marker `replace`. -/
theorem applyPatch_marker (D : Deployment) :
    ∃ D', applyPatch ( updateAnnotation D.ObjectMeta.Annotations
            [(admissionWebhookAnnotationMutateKey, "true")]) D = some D' ∧
      D'.ObjectMeta.OwnerReferences = D.ObjectMeta.OwnerReferences ∧
      mapLookup D'.ObjectMeta.Annotations admissionWebhookAnnotationMutateKey = some "true" ∧
      applyPatch [{ Op := "replace",
                    Path := "/metadata/annotations/" ++ admissionWebhookAnnotationMutateKey,
                    Value := PatchValue.scalar "true" }] D' = some D' := by
  rw [updateAnnotation_marker]
  by_cases h : D.ObjectMeta.Annotations = none ∨
      mapIndex D.ObjectMeta.Annotations admissionWebhookAnnotationMutateKey = ""
  · rw [if_pos h]
    refine ⟨D.withAnnotations (some [(admissionWebhookAnnotationMutateKey, "true")]), ?_, rfl,
      ?_, ?_⟩
    · simp [applyPatch, applyOperation, resolveLocation_annotations]
    · simp [Deployment.withAnnotations, mapLookup, entriesLookup]
    · simp [applyPatch, applyOperation, resolveLocation_marker, Deployment.withAnnotations,
        entriesLookup, entriesReplace]
  · rw [if_neg h]
    rw [not_or] at h
    obtain ⟨hne, hidx⟩ := h
    cases hann : D.ObjectMeta.Annotations with
    | none => exact absurd hann hne
    | some es =>
      have hsome : (entriesLookup es admissionWebhookAnnotationMutateKey).isSome = true := by
        cases hl : entriesLookup es admissionWebhookAnnotationMutateKey with
        | none => simp [mapIndex, mapLookup, hann, hl] at hidx
        | some v => rfl
      obtain ⟨v, hv⟩ := Option.isSome_iff_exists.1 hsome
      refine ⟨D.withAnnotations
        (some (entriesReplace es admissionWebhookAnnotationMutateKey "true")), ?_, rfl, ?_, ?_⟩
      · simp [applyPatch, applyOperation, resolveLocation_marker, hann, hsome]
      · simp [Deployment.withAnnotations, mapLookup, entriesLookup_entriesReplace, hv]
      · simp [applyPatch, applyOperation, resolveLocation_marker, Deployment.withAnnotations,
          entriesLookup_entriesReplace, hv, entriesReplace_idem]

/-- The accumulator of the loop is a prefix of its result. -/
theorem updateAnnotationLoop_append (added : List (String × String)) :
    ∀ (target : Option StrMap) (patch : List patchOperation),
      updateAnnotationLoop target added patch = patch ++ updateAnnotationLoop target added [] := by
  induction added with
  | nil => intro target patch; simp [updateAnnotationLoop]
  | cons e rest ih =>
    intro target patch
    obtain ⟨key, value⟩ := e
    by_cases h : target = none ∨ mapIndex target key = ""
    · simp only [updateAnnotationLoop, if_pos h]
      rw [ih (some []) (patch ++ _), ih (some []) ([] ++ _)]
      simp
    · simp only [updateAnnotationLoop, if_neg h]
      rw [ih target (patch ++ _), ih target ([] ++ _)]
      simp

/-- One iteration of the loop of `updateAnnotation`: after an `add` the rest of
the additions is processed against an empty map. -/
theorem updateAnnotation_cons (target : Option StrMap) (key value : String)
    (rest : List (String × String)) :
    updateAnnotation target ((key, value) :: rest) =
      if target = none ∨ mapIndex target key = "" then
        { Op := "add", Path := "/metadata/annotations",
          Value := PatchValue.map [(key, value)] } :: updateAnnotation (some []) rest
      else
        { Op := "replace", Path := "/metadata/annotations/" ++ key,
          Value := PatchValue.scalar value } :: updateAnnotation target rest := by
  unfold updateAnnotation
  by_cases h : target = none ∨ mapIndex target key = ""
  · simp only [updateAnnotationLoop, if_pos h]
    rw [updateAnnotationLoop_append]
    simp
  · simp only [updateAnnotationLoop, if_neg h]
    rw [updateAnnotationLoop_append]
    simp

theorem updateAnnotation_nil (target : Option StrMap) : updateAnnotation target [] = [] := by
  simp [ updateAnnotation, updateAnnotationLoop]

/-- Every emitted path is the annotation-map location or that location followed
by a slash and one of the added keys, verbatim. -/
theorem updateAnnotation_path (added : List (String × String)) :
    ∀ (target : Option StrMap) (op : patchOperation), op ∈ updateAnnotation target added →
      op.Path = "/metadata/annotations" ∨
        ∃ e ∈ added, op.Path = "/metadata/annotations/" ++ e.1 := by
  induction added with
  | nil => intro target op h; simp [updateAnnotation_nil] at h
  | cons e rest ih =>
    intro target op h
    obtain ⟨key, value⟩ := e
    rw [updateAnnotation_cons] at h
    split_ifs at h
    · rcases List.mem_cons.1 h with h | h
      · left; rw [h]
      · rcases ih _ op h with h | ⟨e, he, hp⟩
        · left; exact h
        · right; exact ⟨e, List.mem_cons_of_mem _ he, hp⟩
    · rcases List.mem_cons.1 h with h | h
      · right; exact ⟨(key, value), List.mem_cons_self _ _, by rw [h]⟩
      · rcases ih _ op h with h | ⟨e, he, hp⟩
        · left; exact h
        · right; exact ⟨e, List.mem_cons_of_mem _ he, hp⟩

/-- Escaping leaves a token without slash and tilde unchanged. -/
theorem escapeToken_of_plain (cs : List Char) (h : ∀ c ∈ cs, c ≠ '/' ∧ c ≠ '~') :
    escapeToken cs = cs := by
  induction cs with
  | nil => rfl
  | cons c rest ih =>
    have hc := h c (List.mem_cons_self _ _)
    have hrest := ih (fun d hd => h d (List.mem_cons_of_mem _ hd))
    simp [escapeToken, hc.1, hc.2, hrest]

/-- With a request present `mutate` returns a decision, and a decision that
carries a patch is an allow with a patch type. -/
theorem mutate_total (J : Json) (ar : AdmissionReview) (req : AdmissionRequest)
    (hreq : ar.Request = some req) :
    ∃ d, mutate J ar = Except.ok d ∧
      (d.Patch ≠ none → d.Allowed = true ∧ d.PatchType ≠ none) := by
  simp only [mutate, hreq, createPatch]
  split_ifs
  · exact ⟨_, rfl, by simp⟩
  · exact ⟨_, rfl, by simp⟩
  · cases J.Unmarshal req.Object.Raw with
    | error e => exact ⟨_, rfl, by simp⟩
    | ok D =>
      by_cases hs : ownerScan D.ObjectMeta.OwnerReferences = true
      · simp only [hs, if_true]
        exact ⟨_, rfl, by simp⟩
      · simp only [hs]
        exact ⟨_, rfl, by simp⟩

/-- With a request present `validate` returns a decision, and it carries neither
a patch nor a patch type. -/
theorem validate_total (J : Json) (ar : AdmissionReview) (req : AdmissionRequest)
    (hreq : ar.Request = some req) :
    ∃ d, validate J ar = Except.ok d ∧ d.Patch = none ∧ d.PatchType = none := by
  simp only [validate, hreq]
  split_ifs
  · exact ⟨_, rfl, rfl, rfl⟩
  · cases J.Unmarshal req.Object.Raw with
    | error e => exact ⟨_, rfl, rfl, rfl⟩
    | ok D =>
      by_cases hs : ownerScan D.ObjectMeta.OwnerReferences = true
      · simp only [hs, if_true]
        cases mapLookup D.ObjectMeta.Annotations admissionWebhookAnnotationMutateKey with
        | none => exact ⟨_, rfl, rfl, rfl⟩
        | some v => exact ⟨_, rfl, rfl, rfl⟩
      · simp only [hs]
        exact ⟨_, rfl, rfl, rfl⟩

/-- Handler past its two transport checks: with a non-empty body and content
type `application/json`, what `serve` does is determined by the decoder's
outcome and the path. -/
theorem serve_accepted (env : Env) (r : HttpRequest) (body : Bytes)
    (hbody : r.Body = some (Except.ok body)) (hne : body ≠ [])
    (hct : r.ContentType = "application/json") :
    serve env r =
      match (match (env.Decode body).2 with
             | some err =>
               (Except.ok (some { Result := some { Message := err } }) :
                 Except Fault (Option AdmissionResponse))
             | none =>
               if r.Path = "/mutate" then (mutate env.json (env.Decode body).1).map some
               else if r.Path = "/validate" then
                 (validate env.json (env.Decode body).1).map some
               else Except.ok none) with
      | Except.error fault => Except.error fault
      | Except.ok admissionResponse =>
        Except.ok (transmit env
          (match admissionResponse with
           | none => {}
           | some response =>
             match (env.Decode body).1.Request with
             | some req => { Response := some { response with UID := req.UID } }
             | none => { Response := some response })) := by
  have hlen : ¬ body.length = 0 := by
    intro h
    exact hne (List.length_eq_zero.1 h)
  simp only [serve, hbody, hct]
  rw [if_neg hlen, if_neg (by simp)]

/-- Against an empty map every addition gives an `add`. -/
theorem updateAnnotation_empty_target (added : List (String × String)) :
    updateAnnotation (some []) added =
      added.map (fun e => ({ Op := "add", Path := "/metadata/annotations",
                             Value := PatchValue.map [(e.1, e.2)] } : patchOperation)) := by
  induction added with
  | nil => exact updateAnnotation_nil _
  | cons e rest ih =>
    obtain ⟨key, value⟩ := e
    rw [updateAnnotation_cons, if_pos (Or.inr (by simp [mapIndex, mapLookup, entriesLookup])), ih]
    rfl

/-- While no key gives an `add`, the loop follows the specification's rule
against the caller's map and goes on with that map. -/
theorem updateAnnotation_append_of_no_add (target : Option StrMap)
    (pre rest : List (String × String))
    (hpre : ∀ e ∈ pre, ¬ (target = none ∨ mapIndex target e.1 = "")) :
    updateAnnotation target (pre ++ rest) =
      specSynthesize target pre ++ updateAnnotation target rest := by
  induction pre with
  | nil => simp [specSynthesize]
  | cons e pre ih =>
    obtain ⟨key, value⟩ := e
    have hhead := hpre (key, value) (List.mem_cons_self _ _)
    have htail := ih (fun e he => hpre e (List.mem_cons_of_mem _ he))
    rw [List.cons_append, updateAnnotation_cons, if_neg hhead, htail]
    simp [specSynthesize, specOperation, hhead]

/-- When every key gives an `add` against the caller's map, the loop agrees with
the specification's rule. -/
theorem updateAnnotation_of_all_add (target : Option StrMap)
    (added : List (String × String))
    (hall : ∀ e ∈ added, target = none ∨ mapIndex target e.1 = "") :
    updateAnnotation target added = specSynthesize target added := by
  cases added with
  | nil => simp [updateAnnotation_nil, specSynthesize]
  | cons e rest =>
    obtain ⟨key, value⟩ := e
    have hhead := hall (key, value) (List.mem_cons_self _ _)
    rw [updateAnnotation_cons, if_pos hhead, updateAnnotation_empty_target]
    simp only [specSynthesize, List.map_cons, specOperation, if_pos hhead]
    congr 1
    apply List.map_congr_left
    intro e he
    rw [if_pos (hall e (List.mem_cons_of_mem _ he))]

/-- When no key gives an `add` against the caller's map, the loop agrees with the
specification's rule. -/
theorem updateAnnotation_of_no_add (target : Option StrMap)
    (added : List (String × String))
    (hnone : ∀ e ∈ added, ¬ (target = none ∨ mapIndex target e.1 = "")) :
    updateAnnotation target added = specSynthesize target added := by
  have h := updateAnnotation_append_of_no_add target added [] hnone
  rw [List.append_nil, updateAnnotation_nil, List.append_nil] at h
  exact h

/-! ## Claims -/

/-- C1. For a request with operation Create or Update and kind "Deployment" whose
body decodes to a workload that has an owner reference of kind
"UnitedDeployment" and whose annotation map is nil or empty, `mutate` returns
allowed = true, patch type JSONPatch, no result, and as patch the encoding of
exactly one operation: `add` at "/metadata/annotations" with value the singleton
map from "deployment-create-by-uniteddeployment" to "true". -/
theorem mutate_add_on_missing_annotations (J : Json) (ar : AdmissionReview)
    (req : AdmissionRequest) (D : Deployment) (hreq : ar.Request = some req)
    (hop : req.Operation = Create ∨ req.Operation = Update)
    (hkind : req.Kind.Kind = "Deployment")
    (hbody : J.Unmarshal req.Object.Raw = Except.ok D)
    (hown : ∃ o ∈ D.ObjectMeta.OwnerReferences, o.Kind = "UnitedDeployment")
    (hann : D.ObjectMeta.Annotations = none ∨ D.ObjectMeta.Annotations = some []) :
    mutate J ar = Except.ok
      { UID := "", Allowed := true, Result := none,
        Patch := some (J.Marshal
          [{ Op := "add", Path := "/metadata/annotations",
             Value := PatchValue.map [("deployment-create-by-uniteddeployment", "true")] }]),
        PatchType := some "JSONPatch" } := by
  rw [mutate_owned J ar req D hreq hop hkind hbody hown, updateAnnotation_marker]
  rcases hann with h | h <;>
    simp [h, mapIndex, mapLookup, entriesLookup, admissionWebhookAnnotationMutateKey,
      PatchTypeJSONPatch]

theorem mutate_add_on_missing_annotations_witness :
    mutate sampleJson (sampleReview "CREATE" "Deployment" [0]) = Except.ok
      { UID := "", Allowed := true, Result := none,
        Patch := some (sampleJson.Marshal
          [{ Op := "add", Path := "/metadata/annotations",
             Value := PatchValue.map [("deployment-create-by-uniteddeployment", "true")] }]),
        PatchType := some "JSONPatch" } :=
  mutate_add_on_missing_annotations sampleJson (sampleReview "CREATE" "Deployment" [0])
    _ ownedBare rfl (Or.inl rfl) rfl rfl ⟨_, List.mem_cons_self _ _, rfl⟩ (Or.inl rfl)

/-- C2. For a request with operation Create or Update and kind "Deployment" whose
body decodes to a workload that has an owner reference of kind
"UnitedDeployment" and whose annotation map binds
"deployment-create-by-uniteddeployment" to a non-empty string, `mutate` returns
allowed = true with, as patch, the encoding of exactly one operation: `replace`
at "/metadata/annotations/deployment-create-by-uniteddeployment" with the scalar
value "true". -/
theorem mutate_replace_on_marked (J : Json) (ar : AdmissionReview)
    (req : AdmissionRequest) (D : Deployment) (v : String)
    (hreq : ar.Request = some req)
    (hop : req.Operation = Create ∨ req.Operation = Update)
    (hkind : req.Kind.Kind = "Deployment")
    (hbody : J.Unmarshal req.Object.Raw = Except.ok D)
    (hown : ∃ o ∈ D.ObjectMeta.OwnerReferences, o.Kind = "UnitedDeployment")
    (hmark : mapLookup D.ObjectMeta.Annotations "deployment-create-by-uniteddeployment" = some v)
    (hv : v ≠ "") :
    mutate J ar = Except.ok
      { UID := "", Allowed := true, Result := none,
        Patch := some (J.Marshal
          [{ Op := "replace",
             Path := "/metadata/annotations/deployment-create-by-uniteddeployment",
             Value := PatchValue.scalar "true" }]),
        PatchType := some "JSONPatch" } := by
  rw [mutate_owned J ar req D hreq hop hkind hbody hown, updateAnnotation_marker]
  have hne : D.ObjectMeta.Annotations ≠ none := by
    intro h
    simp [h, mapLookup] at hmark
  have hidx : mapIndex D.ObjectMeta.Annotations admissionWebhookAnnotationMutateKey = v := by
    simp [mapIndex, admissionWebhookAnnotationMutateKey, hmark]
  rw [if_neg (by simp [hne, hidx, hv])]
  rfl

theorem mutate_replace_on_marked_witness :
    mutate sampleJson (sampleReview "UPDATE" "Deployment" [1]) = Except.ok
      { UID := "", Allowed := true, Result := none,
        Patch := some (sampleJson.Marshal
          [{ Op := "replace",
             Path := "/metadata/annotations/deployment-create-by-uniteddeployment",
             Value := PatchValue.scalar "true" }]),
        PatchType := some "JSONPatch" } :=
  mutate_replace_on_marked sampleJson (sampleReview "UPDATE" "Deployment" [1])
    _ ownedMarked "stale" rfl (Or.inr rfl) rfl rfl ⟨_, List.mem_cons_self _ _, rfl⟩
    (by decide) (by decide)

/-- C3. For a request of kind "Deployment" whose body decodes to a workload that
has an owner reference of kind "UnitedDeployment" and whose annotation map does
not contain the key "deployment-create-by-uniteddeployment" (a nil map
included), `validate` returns allowed = false, no patch, and a result whose
reason is the fixed, non-empty text "required annotation are not set". -/
theorem validate_rejects_unmarked (J : Json) (ar : AdmissionReview)
    (req : AdmissionRequest) (D : Deployment) (hreq : ar.Request = some req)
    (hkind : req.Kind.Kind = "Deployment")
    (hbody : J.Unmarshal req.Object.Raw = Except.ok D)
    (hown : ∃ o ∈ D.ObjectMeta.OwnerReferences, o.Kind = "UnitedDeployment")
    (hmark : mapLookup D.ObjectMeta.Annotations "deployment-create-by-uniteddeployment" = none) :
    validate J ar = Except.ok
      { UID := "", Allowed := false,
        Result := some { Message := "", Reason := "required annotation are not set" },
        Patch := none, PatchType := none } ∧
    "required annotation are not set" ≠ "" := by
  refine ⟨?_, by decide⟩
  rw [validate_owned J ar req D hreq hkind hbody hown]
  simp only [admissionWebhookAnnotationMutateKey, hmark]

theorem validate_rejects_unmarked_witness :
    validate sampleJson (sampleReview "CREATE" "Deployment" [3]) = Except.ok
      { UID := "", Allowed := false,
        Result := some { Message := "", Reason := "required annotation are not set" },
        Patch := none, PatchType := none } ∧
    "required annotation are not set" ≠ "" :=
  validate_rejects_unmarked sampleJson (sampleReview "CREATE" "Deployment" [3])
    _ ownedUnmarked rfl rfl rfl ⟨_, List.mem_cons_self _ _, rfl⟩ (by decide)

/-- C4. Mutation establishes the validation invariant.  For a request with
operation Create or Update and kind "Deployment" whose body decodes to a workload
`D` owned by a "UnitedDeployment" (whatever its annotation map), `mutate` returns
the encoding of a patch that applies to `D` under JSON Patch add/replace
semantics, and `validate` allows every request whose body decodes to the patched
workload. -/
theorem mutate_establishes_validate (J : Json) (ar : AdmissionReview)
    (req : AdmissionRequest) (D : Deployment) (hreq : ar.Request = some req)
    (hop : req.Operation = Create ∨ req.Operation = Update)
    (hkind : req.Kind.Kind = "Deployment")
    (hbody : J.Unmarshal req.Object.Raw = Except.ok D)
    (hown : ∃ o ∈ D.ObjectMeta.OwnerReferences, o.Kind = "UnitedDeployment") :
    ∃ ops D',
      mutate J ar = Except.ok
        { Allowed := true, Patch := some (J.Marshal ops), PatchType := some "JSONPatch" } ∧
      ops = updateAnnotation D.ObjectMeta.Annotations
        [("deployment-create-by-uniteddeployment", "true")] ∧
      applyPatch ops D = some D' ∧
      ∀ (ar' : AdmissionReview) (req' : AdmissionRequest), ar'.Request = some req' →
        J.Unmarshal req'.Object.Raw = Except.ok D' →
        validate J ar' = Except.ok { Allowed := true, Result := none } := by
  obtain ⟨D', happly, howners, hmark, -⟩ := applyPatch_marker D
  refine ⟨_, D', mutate_owned J ar req D hreq hop hkind hbody hown, rfl, happly, ?_⟩
  intro ar' req' hreq' hbody'
  by_cases hk : req'.Kind.Kind = "Deployment"
  · rw [validate_owned J ar' req' D' hreq' hk hbody' (howners ▸ hown), hmark]
  · simp [validate, hreq', hk]

theorem mutate_establishes_validate_witness :
    ∃ ops D',
      mutate sampleJson (sampleReview "CREATE" "Deployment" [3]) = Except.ok
        { Allowed := true, Patch := some (sampleJson.Marshal ops),
          PatchType := some "JSONPatch" } ∧
      ops = updateAnnotation ownedUnmarked.ObjectMeta.Annotations
        [("deployment-create-by-uniteddeployment", "true")] ∧
      applyPatch ops ownedUnmarked = some D' ∧
      ∀ (ar' : AdmissionReview) (req' : AdmissionRequest), ar'.Request = some req' →
        sampleJson.Unmarshal req'.Object.Raw = Except.ok D' →
        validate sampleJson ar' = Except.ok { Allowed := true, Result := none } :=
  mutate_establishes_validate sampleJson (sampleReview "CREATE" "Deployment" [3])
    _ ownedUnmarked rfl (Or.inl rfl) rfl rfl ⟨_, List.mem_cons_self _ _, rfl⟩

/-- C5. Mutation reaches a fixed point after one application.  For a request
with operation Create or Update and kind "Deployment" whose body decodes to a
workload `D` owned by a "UnitedDeployment", the patch returned by `mutate`
applies to `D`; on every Create or Update request of kind "Deployment" whose
body decodes to the patched workload, `mutate` returns the encoding of exactly
one operation, a `replace` at
"/metadata/annotations/deployment-create-by-uniteddeployment" with value "true";
and applying that operation to the patched workload leaves it unchanged. -/
theorem mutate_fixed_point (J : Json) (ar : AdmissionReview)
    (req : AdmissionRequest) (D : Deployment) (hreq : ar.Request = some req)
    (hop : req.Operation = Create ∨ req.Operation = Update)
    (hkind : req.Kind.Kind = "Deployment")
    (hbody : J.Unmarshal req.Object.Raw = Except.ok D)
    (hown : ∃ o ∈ D.ObjectMeta.OwnerReferences, o.Kind = "UnitedDeployment") :
    ∃ ops D',
      mutate J ar = Except.ok
        { Allowed := true, Patch := some (J.Marshal ops), PatchType := some "JSONPatch" } ∧
      ops = updateAnnotation D.ObjectMeta.Annotations
        [("deployment-create-by-uniteddeployment", "true")] ∧
      applyPatch ops D = some D' ∧
      (∀ (ar' : AdmissionReview) (req' : AdmissionRequest), ar'.Request = some req' →
        (req'.Operation = Create ∨ req'.Operation = Update) →
        req'.Kind.Kind = "Deployment" →
        J.Unmarshal req'.Object.Raw = Except.ok D' →
        mutate J ar' = Except.ok
          { Allowed := true,
            Patch := some (J.Marshal
              [{ Op := "replace",
                 Path := "/metadata/annotations/deployment-create-by-uniteddeployment",
                 Value := PatchValue.scalar "true" }]),
            PatchType := some "JSONPatch" }) ∧
      applyPatch
        [{ Op := "replace",
           Path := "/metadata/annotations/deployment-create-by-uniteddeployment",
           Value := PatchValue.scalar "true" }] D' = some D' := by
  obtain ⟨D', happly, howners, hmark, hfix⟩ := applyPatch_marker D
  refine ⟨_, D', mutate_owned J ar req D hreq hop hkind hbody hown, rfl, happly, ?_, hfix⟩
  intro ar' req' hreq' hop' hkind' hbody'
  rw [mutate_owned J ar' req' D' hreq' hop' hkind' hbody' (howners ▸ hown),
    updateAnnotation_marker]
  have hne : D'.ObjectMeta.Annotations ≠ none := by
    intro h
    simp [h, mapLookup] at hmark
  have hidx : mapIndex D'.ObjectMeta.Annotations admissionWebhookAnnotationMutateKey = "true" := by
    simp [mapIndex, hmark]
  rw [if_neg (by simp [hne, hidx])]
  rfl

theorem mutate_fixed_point_witness :
    mutate sampleJson (sampleReview "UPDATE" "Deployment" [6]) = Except.ok
      { Allowed := true,
        Patch := some (sampleJson.Marshal
          [{ Op := "replace",
             Path := "/metadata/annotations/deployment-create-by-uniteddeployment",
             Value := PatchValue.scalar "true" }]),
        PatchType := some "JSONPatch" } ∧
    applyPatch
      [{ Op := "replace",
         Path := "/metadata/annotations/deployment-create-by-uniteddeployment",
         Value := PatchValue.scalar "true" }]
      (ownedBare.withAnnotations
        (some [("team", "core"), ("deployment-create-by-uniteddeployment", "true")])) =
      some (ownedBare.withAnnotations
        (some [("team", "core"), ("deployment-create-by-uniteddeployment", "true")])) := by
  obtain ⟨ops, D', -, hops, happly, hmut, hfix⟩ :=
    mutate_fixed_point sampleJson (sampleReview "CREATE" "Deployment" [1]) _ ownedMarked
      rfl (Or.inl rfl) rfl rfl ⟨_, List.mem_cons_self _ _, rfl⟩
  have hD : D' = ownedBare.withAnnotations
      (some [("team", "core"), ("deployment-create-by-uniteddeployment", "true")]) := by
    have h : applyPatch ( updateAnnotation ownedMarked.ObjectMeta.Annotations
        [("deployment-create-by-uniteddeployment", "true")]) ownedMarked =
        some (ownedBare.withAnnotations
          (some [("team", "core"), ("deployment-create-by-uniteddeployment", "true")])) := by
      decide
    rw [hops, h] at happly
    exact (Option.some.inj happly).symm
  subst hD
  exact ⟨hmut (sampleReview "UPDATE" "Deployment" [6]) _ rfl (Or.inr rfl) rfl rfl, hfix⟩

/-- C6. For a request whose operation is neither Create nor Update, whatever its
kind and raw body (the body is not decoded), `mutate` returns allowed = true with
no patch, no patch type and no result. -/
theorem mutate_skips_other_operations (J : Json) (ar : AdmissionReview)
    (req : AdmissionRequest) (hreq : ar.Request = some req)
    (hop : req.Operation ≠ Create ∧ req.Operation ≠ Update) :
    mutate J ar = Except.ok
      { UID := "", Allowed := true, Result := none, Patch := none, PatchType := none } := by
  simp only [mutate, hreq]
  rw [if_pos hop]

theorem mutate_skips_other_operations_witness :
    mutate sampleJson (sampleReview "DELETE" "Deployment" [9]) = Except.ok
      { UID := "", Allowed := true, Result := none, Patch := none, PatchType := none } :=
  mutate_skips_other_operations sampleJson (sampleReview "DELETE" "Deployment" [9]) _ rfl
    (by decide)

/-- C7. For a request whose kind name is not exactly "Deployment", whatever its
operation and raw body (the body is not decoded), both `mutate` and `validate`
return allowed = true with no patch, no patch type and no result. -/
theorem deciders_skip_other_kinds (J : Json) (ar : AdmissionReview)
    (req : AdmissionRequest) (hreq : ar.Request = some req)
    (hkind : req.Kind.Kind ≠ "Deployment") :
    mutate J ar = Except.ok
      { UID := "", Allowed := true, Result := none, Patch := none, PatchType := none } ∧
    validate J ar = Except.ok
      { UID := "", Allowed := true, Result := none, Patch := none, PatchType := none } := by
  constructor
  · simp only [mutate, hreq]
    by_cases hop : req.Operation ≠ Create ∧ req.Operation ≠ Update
    · rw [if_pos hop]
    · rw [if_neg hop, if_pos hkind]
  · simp only [validate, hreq]
    rw [if_pos hkind]

theorem deciders_skip_other_kinds_witness :
    mutate sampleJson (sampleReview "CREATE" "StatefulSet" [9]) = Except.ok
      { UID := "", Allowed := true, Result := none, Patch := none, PatchType := none } ∧
    validate sampleJson (sampleReview "CREATE" "StatefulSet" [9]) = Except.ok
      { UID := "", Allowed := true, Result := none, Patch := none, PatchType := none } :=
  deciders_skip_other_kinds sampleJson (sampleReview "CREATE" "StatefulSet" [9]) _ rfl
    (by decide)

/-- C8. For a request whose body decodes to a workload none of whose owner
references has kind exactly "UnitedDeployment" (an empty owner list included),
whatever the request's operation and kind, `mutate` returns allowed = true with
no patch, and `validate` returns allowed = true whatever the annotation map
contains. -/
theorem deciders_skip_foreign_owners (J : Json) (ar : AdmissionReview)
    (req : AdmissionRequest) (D : Deployment) (hreq : ar.Request = some req)
    (hbody : J.Unmarshal req.Object.Raw = Except.ok D)
    (hown : ∀ o ∈ D.ObjectMeta.OwnerReferences, o.Kind ≠ "UnitedDeployment") :
    mutate J ar = Except.ok
      { UID := "", Allowed := true, Result := none, Patch := none, PatchType := none } ∧
    validate J ar = Except.ok
      { UID := "", Allowed := true, Result := none, Patch := none, PatchType := none } := by
  have hscan := (ownerScan_eq_false_iff _).2 hown
  constructor
  · simp only [mutate, hreq, hbody, hscan]
    split_ifs <;> first | rfl | contradiction
  · simp only [validate, hreq, hbody, hscan]
    split_ifs <;> first | rfl | contradiction

theorem deciders_skip_foreign_owners_witness :
    mutate sampleJson (sampleReview "CREATE" "Deployment" [4]) = Except.ok
      { UID := "", Allowed := true, Result := none, Patch := none, PatchType := none } ∧
    validate sampleJson (sampleReview "CREATE" "Deployment" [4]) = Except.ok
      { UID := "", Allowed := true, Result := none, Patch := none, PatchType := none } :=
  deciders_skip_foreign_owners sampleJson (sampleReview "CREATE" "Deployment" [4]) _
    foreignDeployment rfl rfl (by decide)

/-- C9. Both deciders fail closed on a body that does not decode.  For a request
of kind "Deployment" whose raw body fails to decode with error text `e`,
`validate` returns allowed = false, no patch, and a result whose message is `e`;
and so does `mutate` when the operation is Create or Update. -/
theorem deciders_fail_closed_on_bad_body (J : Json) (ar : AdmissionReview)
    (req : AdmissionRequest) (e : String) (hreq : ar.Request = some req)
    (hkind : req.Kind.Kind = "Deployment")
    (hbody : J.Unmarshal req.Object.Raw = Except.error e) :
    validate J ar = Except.ok
      { UID := "", Allowed := false, Result := some { Message := e, Reason := "" },
        Patch := none, PatchType := none } ∧
    (req.Operation = Create ∨ req.Operation = Update →
      mutate J ar = Except.ok
        { UID := "", Allowed := false, Result := some { Message := e, Reason := "" },
          Patch := none, PatchType := none }) := by
  constructor
  · simp [validate, hreq, hkind, hbody]
  · intro hop
    have hop' : ¬ (req.Operation ≠ Create ∧ req.Operation ≠ Update) := by
      rcases hop with h | h <;> simp [h]
    simp only [mutate, hreq, hkind, hbody]
    rw [if_neg hop']
    simp

theorem deciders_fail_closed_on_bad_body_witness :
    validate sampleJson (sampleReview "UPDATE" "Deployment" [9]) = Except.ok
      { UID := "", Allowed := false,
        Result := some { Message := "unexpected end of JSON input", Reason := "" },
        Patch := none, PatchType := none } ∧
    mutate sampleJson (sampleReview "UPDATE" "Deployment" [9]) = Except.ok
      { UID := "", Allowed := false,
        Result := some { Message := "unexpected end of JSON input", Reason := "" },
        Patch := none, PatchType := none } :=
  have h := deciders_fail_closed_on_bad_body sampleJson
    (sampleReview "UPDATE" "Deployment" [9]) _ "unexpected end of JSON input" rfl rfl rfl
  ⟨h.1, h.2 (Or.inr rfl)⟩

/-- C10. Validation checks the presence of the marker only, never its value.  For
a request of kind "Deployment" whose body decodes to a workload owned by a
"UnitedDeployment" and whose annotation map contains the key
"deployment-create-by-uniteddeployment" with any value `v` (the empty string and
values other than "true" included), `validate` returns allowed = true with no
result. -/
theorem validate_accepts_any_marker_value (J : Json) (ar : AdmissionReview)
    (req : AdmissionRequest) (D : Deployment) (v : String)
    (hreq : ar.Request = some req)
    (hkind : req.Kind.Kind = "Deployment")
    (hbody : J.Unmarshal req.Object.Raw = Except.ok D)
    (hown : ∃ o ∈ D.ObjectMeta.OwnerReferences, o.Kind = "UnitedDeployment")
    (hmark : mapLookup D.ObjectMeta.Annotations "deployment-create-by-uniteddeployment" = some v) :
    validate J ar = Except.ok
      { UID := "", Allowed := true, Result := none, Patch := none, PatchType := none } := by
  rw [validate_owned J ar req D hreq hkind hbody hown]
  simp only [admissionWebhookAnnotationMutateKey, hmark]

theorem validate_accepts_any_marker_value_witness :
    validate sampleJson (sampleReview "CREATE" "Deployment" [2]) = Except.ok
      { UID := "", Allowed := true, Result := none, Patch := none, PatchType := none } :=
  validate_accepts_any_marker_value sampleJson (sampleReview "CREATE" "Deployment" [2]) _
    ownedMarkedEmpty "" rfl rfl rfl ⟨_, List.mem_cons_self _ _, rfl⟩ (by decide)

/-- C11. Decision invariant.  For a review carrying a request, `mutate` and
`validate` each return a decision; a decision of `mutate` that carries a patch
has allowed = true and a patch type; and the decision of `validate` carries
neither a patch nor a patch type. -/
theorem decision_patch_invariant (J : Json) (ar : AdmissionReview)
    (req : AdmissionRequest) (hreq : ar.Request = some req) :
    ∃ dm dv, mutate J ar = Except.ok dm ∧ validate J ar = Except.ok dv ∧
      (dm.Patch ≠ none → dm.Allowed = true ∧ dm.PatchType ≠ none) ∧
      (dv.Patch ≠ none → dv.Allowed = true ∧ dv.PatchType ≠ none) ∧
      dv.Patch = none ∧ dv.PatchType = none := by
  obtain ⟨dm, hm, hinv⟩ := mutate_total J ar req hreq
  obtain ⟨dv, hv, hp, ht⟩ := validate_total J ar req hreq
  exact ⟨dm, dv, hm, hv, hinv, fun h => absurd hp h, hp, ht⟩

theorem decision_patch_invariant_witness :
    ∃ dm dv, mutate sampleJson (sampleReview "UPDATE" "Deployment" [3]) = Except.ok dm ∧
      validate sampleJson (sampleReview "UPDATE" "Deployment" [3]) = Except.ok dv ∧
      (dm.Patch ≠ none → dm.Allowed = true ∧ dm.PatchType ≠ none) ∧
      (dv.Patch ≠ none → dv.Allowed = true ∧ dv.PatchType ≠ none) ∧
      dv.Patch = none ∧ dv.PatchType = none :=
  decision_patch_invariant sampleJson (sampleReview "UPDATE" "Deployment" [3]) _ rfl

/-- C12 as stated fails on a later key.  With the caller's map binding "team" to
"core" and the additions visited in the order marker, "team", the per-key rule
gives an `add` for the marker and a `replace` at "/metadata/annotations/team",
whereas `updateAnnotation` emits an `add` for "team" as well: after the first
`add` the loop tests the remaining keys against an empty map. -/
theorem updateAnnotation_later_key_ignores_current :
    updateAnnotation (some [("team", "core")])
        [("deployment-create-by-uniteddeployment", "true"), ("team", "platform")] =
      [{ Op := "add", Path := "/metadata/annotations",
         Value := PatchValue.map [("deployment-create-by-uniteddeployment", "true")] },
       { Op := "add", Path := "/metadata/annotations",
         Value := PatchValue.map [("team", "platform")] }] ∧
    specSynthesize (some [("team", "core")])
        [("deployment-create-by-uniteddeployment", "true"), ("team", "platform")] =
      [{ Op := "add", Path := "/metadata/annotations",
         Value := PatchValue.map [("deployment-create-by-uniteddeployment", "true")] },
       { Op := "replace", Path := "/metadata/annotations/team",
         Value := PatchValue.scalar "platform" }] ∧
    updateAnnotation (some [("team", "core")])
        [("deployment-create-by-uniteddeployment", "true"), ("team", "platform")] ≠
      specSynthesize (some [("team", "core")])
        [("deployment-create-by-uniteddeployment", "true"), ("team", "platform")] := by
  refine ⟨by decide, by decide, by decide⟩

/-- C12, amended.  For every current annotation map (possibly absent) and every
additions sequence, `updateAnnotation` follows the per-key rule against the
caller's map for every key up to and including the first key that gives an
`add`, and emits an `add` at "/metadata/annotations" with value {k: v} for every
key after it.  Precisely: if no key of `pre` gives an `add`, the output for
`pre` is the rule's output for `pre`; and if moreover `k` gives an `add`, the
output for `pre`, then `(k, v)`, then `post` is the rule's output for `pre` and
`(k, v)` followed by one whole-map `add` per entry of `post`. -/
theorem updateAnnotation_rule_until_first_add (target : Option StrMap)
    (pre post : List (String × String))
    (hpre : ∀ e ∈ pre, ¬ (target = none ∨ mapIndex target e.1 = "")) :
    updateAnnotation target pre = specSynthesize target pre ∧
    ∀ k v, (target = none ∨ mapIndex target k = "") →
      updateAnnotation target (pre ++ (k, v) :: post) =
        specSynthesize target (pre ++ [(k, v)]) ++
          post.map (fun e => ({ Op := "add", Path := "/metadata/annotations",
                                Value := PatchValue.map [(e.1, e.2)] } : patchOperation)) := by
  refine ⟨updateAnnotation_of_no_add target pre hpre, ?_⟩
  intro k v hk
  rw [updateAnnotation_append_of_no_add target pre _ hpre, updateAnnotation_cons, if_pos hk,
    updateAnnotation_empty_target]
  simp [specSynthesize, specOperation, hk]

theorem updateAnnotation_rule_until_first_add_witness :
    updateAnnotation (some [("team", "core"), ("zone", "a")]) [("team", "platform")] =
      specSynthesize (some [("team", "core"), ("zone", "a")]) [("team", "platform")] ∧
    updateAnnotation (some [("team", "core"), ("zone", "a")])
        ([("team", "platform")] ++
          ("deployment-create-by-uniteddeployment", "true") :: [("zone", "b")]) =
      specSynthesize (some [("team", "core"), ("zone", "a")])
          ([("team", "platform")] ++ [("deployment-create-by-uniteddeployment", "true")]) ++
        [("zone", "b")].map
          (fun e => ({ Op := "add", Path := "/metadata/annotations",
                       Value := PatchValue.map [(e.1, e.2)] } : patchOperation)) :=
  have h := updateAnnotation_rule_until_first_add (some [("team", "core"), ("zone", "a")])
    [("team", "platform")] [("zone", "b")] (by decide)
  ⟨h.1, h.2 "deployment-create-by-uniteddeployment" "true" (by decide)⟩

/-- C13 as stated fails.  With the caller's map binding "team" to "core",
visiting the additions in the order marker, "team" emits two `add` operations,
and visiting them in the order "team", marker emits a `replace` and an `add`;
the two sequences are not permutations of each other. -/
theorem updateAnnotation_order_changes_operations :
    updateAnnotation (some [("team", "core")])
        [("deployment-create-by-uniteddeployment", "true"), ("team", "platform")] =
      [{ Op := "add", Path := "/metadata/annotations",
         Value := PatchValue.map [("deployment-create-by-uniteddeployment", "true")] },
       { Op := "add", Path := "/metadata/annotations",
         Value := PatchValue.map [("team", "platform")] }] ∧
    updateAnnotation (some [("team", "core")])
        [("team", "platform"), ("deployment-create-by-uniteddeployment", "true")] =
      [{ Op := "replace", Path := "/metadata/annotations/team",
         Value := PatchValue.scalar "platform" },
       { Op := "add", Path := "/metadata/annotations",
         Value := PatchValue.map [("deployment-create-by-uniteddeployment", "true")] }] ∧
    ¬ List.Perm
      ( updateAnnotation (some [("team", "core")])
        [("deployment-create-by-uniteddeployment", "true"), ("team", "platform")])
      ( updateAnnotation (some [("team", "core")])
        [("team", "platform"), ("deployment-create-by-uniteddeployment", "true")]) := by
  refine ⟨by decide, by decide, ?_⟩
  intro hperm
  have hmem := hperm.mem_iff (a := { Op := "replace", Path := "/metadata/annotations/team",
                                      Value := PatchValue.scalar "platform" })
  revert hmem
  decide

/-- C13, amended.  Iteration order affects only the order of the emitted
operations when the additions are of one kind with respect to the current map:
for every current annotation map and every two orderings of the same additions
in which either every key gives an `add` (current absent, or the key absent or
empty-valued in it) or every key gives a `replace` (present with a non-empty
value), the two sequences emitted by `updateAnnotation` are permutations of
each other, and each is the per-key rule's output for its ordering.  This covers
every single-key additions map. -/
theorem updateAnnotation_perm_of_uniform (target : Option StrMap)
    (a b : List (String × String)) (hperm : List.Perm a b)
    (huniform : (∀ e ∈ a, target = none ∨ mapIndex target e.1 = "") ∨
      (∀ e ∈ a, ¬ (target = none ∨ mapIndex target e.1 = ""))) :
    List.Perm ( updateAnnotation target a) ( updateAnnotation target b) ∧
    updateAnnotation target a = specSynthesize target a ∧
    updateAnnotation target b = specSynthesize target b := by
  have hab : updateAnnotation target a = specSynthesize target a ∧
      updateAnnotation target b = specSynthesize target b := by
    rcases huniform with h | h
    · exact ⟨updateAnnotation_of_all_add target a h,
        updateAnnotation_of_all_add target b (fun e he => h e (hperm.mem_iff.2 he))⟩
    · exact ⟨updateAnnotation_of_no_add target a h,
        updateAnnotation_of_no_add target b (fun e he => h e (hperm.mem_iff.2 he))⟩
  refine ⟨?_, hab.1, hab.2⟩
  rw [hab.1, hab.2]
  exact hperm.map _

theorem updateAnnotation_perm_of_uniform_witness :
    List.Perm
      ( updateAnnotation (some [("team", "core"), ("zone", "a")])
        [("team", "platform"), ("zone", "b")])
      ( updateAnnotation (some [("team", "core"), ("zone", "a")])
        [("zone", "b"), ("team", "platform")]) ∧
    updateAnnotation (some [("team", "core"), ("zone", "a")])
        [("team", "platform"), ("zone", "b")] =
      specSynthesize (some [("team", "core"), ("zone", "a")])
        [("team", "platform"), ("zone", "b")] ∧
    updateAnnotation (some [("team", "core"), ("zone", "a")])
        [("zone", "b"), ("team", "platform")] =
      specSynthesize (some [("team", "core"), ("zone", "a")])
        [("zone", "b"), ("team", "platform")] :=
  updateAnnotation_perm_of_uniform (some [("team", "core"), ("zone", "a")])
    [("team", "platform"), ("zone", "b")] [("zone", "b"), ("team", "platform")]
    (List.Perm.swap _ _ _) (Or.inr (by decide))

/-- C14 as stated fails: for the key "example.com/owner", present with a
non-empty value, the emitted path is
"/metadata/annotations/example.com/owner", which is neither
"/metadata/annotations" nor the escaped form
"/metadata/annotations/example.com~1owner". -/
theorem updateAnnotation_path_not_escaped :
    ¬ ∀ op ∈ updateAnnotation (some [("example.com/owner", "ops")])
          [("example.com/owner", "platform")],
        op.Path = "/metadata/annotations" ∨
          ∃ e ∈ [("example.com/owner", "platform")], op.Path = escapedKeyPath e.1 := by
  decide

/-- C14, amended.  Every path emitted by `updateAnnotation` is either exactly
"/metadata/annotations" or "/metadata/annotations/" followed by one of the added
keys verbatim; for a key that contains neither a slash nor a tilde this is the
path with the key escaped per JSON Pointer rules. -/
theorem updateAnnotation_path_verbatim (target : Option StrMap)
    (added : List (String × String)) (op : patchOperation)
    (hop : op ∈ updateAnnotation target added) :
    op.Path = "/metadata/annotations" ∨
      ∃ e ∈ added, op.Path = "/metadata/annotations/" ++ e.1 ∧
        ((∀ c ∈ e.1.data, c ≠ '/' ∧ c ≠ '~') → op.Path = escapedKeyPath e.1) := by
  rcases updateAnnotation_path added target op hop with h | ⟨e, he, hp⟩
  · exact Or.inl h
  · refine Or.inr ⟨e, he, hp, fun hplain => ?_⟩
    rw [hp, escapedKeyPath, escapeToken_of_plain _ hplain]

theorem updateAnnotation_path_verbatim_witness :
    ({ Op := "replace", Path := "/metadata/annotations/example.com/owner",
       Value := PatchValue.scalar "platform" } : patchOperation).Path =
        "/metadata/annotations" ∨
      ∃ e ∈ [("example.com/owner", "platform")],
        ({ Op := "replace", Path := "/metadata/annotations/example.com/owner",
           Value := PatchValue.scalar "platform" } : patchOperation).Path =
          "/metadata/annotations/" ++ e.1 ∧
        ((∀ c ∈ e.1.data, c ≠ '/' ∧ c ≠ '~') →
          ({ Op := "replace", Path := "/metadata/annotations/example.com/owner",
             Value := PatchValue.scalar "platform" } : patchOperation).Path =
            escapedKeyPath e.1) :=
  updateAnnotation_path_verbatim (some [("example.com/owner", "ops")])
    [("example.com/owner", "platform")] _ (by decide)

/-- C15. Correlation identifier.  For a non-empty body with content type
`application/json` that decodes without error to an envelope carrying a request,
dispatched on "/mutate" or "/validate", the decider selected by the path returns
a decision and the outgoing envelope is that decision with its UID set to the
request's UID, whatever the decision is. -/
theorem serve_echoes_request_uid (env : Env) (r : HttpRequest) (body : Bytes)
    (ar : AdmissionReview) (req : AdmissionRequest)
    (hbody : r.Body = some (Except.ok body)) (hne : body ≠ [])
    (hct : r.ContentType = "application/json")
    (hdec : env.Decode body = (ar, none)) (hreq : ar.Request = some req)
    (hpath : r.Path = "/mutate" ∨ r.Path = "/validate") :
    ∃ d response,
      (if r.Path = "/mutate" then mutate env.json ar else validate env.json ar) = Except.ok d ∧
      response = { d with UID := req.UID } ∧
      response.UID = req.UID ∧
      serve env r = Except.ok (transmit env { Request := none, Response := some response }) := by
  rw [serve_accepted env r body hbody hne hct, hdec]
  rcases hpath with hp | hp
  · obtain ⟨d, hd, -⟩ := mutate_total env.json ar req hreq
    refine ⟨d, _, by rw [if_pos hp]; exact hd, rfl, rfl, ?_⟩
    simp [hp, hd, hreq, Except.map]
  · obtain ⟨d, hd, -⟩ := validate_total env.json ar req hreq
    have hnm : r.Path ≠ "/mutate" := by rw [hp]; decide
    refine ⟨d, _, by rw [if_neg hnm]; exact hd, rfl, rfl, ?_⟩
    simp [hp, hd, hreq, Except.map]

theorem serve_echoes_request_uid_witness :
    ∃ d response,
      (if (samplePost "/validate" [10]).Path = "/mutate"
        then mutate sampleEnv.json (sampleReview "CREATE" "Deployment" [0])
        else validate sampleEnv.json (sampleReview "CREATE" "Deployment" [0])) = Except.ok d ∧
      response = { d with UID := "705ab4f5" } ∧
      response.UID = "705ab4f5" ∧
      serve sampleEnv (samplePost "/validate" [10]) =
        Except.ok (transmit sampleEnv { Request := none, Response := some response }) :=
  serve_echoes_request_uid sampleEnv (samplePost "/validate" [10]) [10]
    (sampleReview "CREATE" "Deployment" [0]) _ rfl (by decide) rfl rfl rfl (Or.inr rfl)

/-- C16 as stated fails: a body whose decoding fails after the decoder has stored
the `request` member leaves a request in the envelope, and the outgoing response
carries that request's UID, not an empty one. -/
theorem serve_decode_failure_keeps_uid :
    (sampleEnv.Decode
      (ascii "\x7b\"request\":\x7b\"uid\":\"705ab4f5\"\x7d,\"response\":5\x7d")).2 =
      some "json: cannot unmarshal number into Go struct field AdmissionReview.response of type v1.AdmissionResponse" ∧
    serve sampleEnv (samplePost "/mutate"
      (ascii "\x7b\"request\":\x7b\"uid\":\"705ab4f5\"\x7d,\"response\":5\x7d")) =
      Except.ok (transmit sampleEnv
        { Response := some
            { UID := "705ab4f5", Allowed := false,
              Result := some { Message := "json: cannot unmarshal number into Go struct field AdmissionReview.response of type v1.AdmissionResponse" } } }) ∧
    serve sampleEnv (samplePost "/mutate"
      (ascii "\x7b\"request\":\x7b\"uid\":\"705ab4f5\"\x7d,\"response\":5\x7d")) ≠
      Except.ok (transmit sampleEnv
        { Response := some
            { UID := "", Allowed := false,
              Result := some { Message := "json: cannot unmarshal number into Go struct field AdmissionReview.response of type v1.AdmissionResponse" } } }) := by
  refine ⟨by decide, by decide, by decide⟩

/-- C16, amended.  For a non-empty body with content type `application/json`
whose decoding fails with error text `e`, on any path, the outgoing envelope
carries a response with allowed = false, a result whose message is `e`, no patch
and no patch type; its correlation identifier is empty when the failed decoding
left no request in the envelope, and otherwise is that request's UID.  The
deciders play no part: the outcome does not depend on the path or on the
workload codec, and there is no fault. -/
theorem serve_decode_failure_fail_closed (env : Env) (r : HttpRequest) (body : Bytes)
    (ar : AdmissionReview) (e : String)
    (hbody : r.Body = some (Except.ok body)) (hne : body ≠ [])
    (hct : r.ContentType = "application/json")
    (hdec : env.Decode body = (ar, some e)) :
    serve env r = Except.ok (transmit env
      { Request := none,
        Response := some
          { UID := (match ar.Request with
                    | some req => req.UID
                    | none => ""),
            Allowed := false, Result := some { Message := e, Reason := "" },
            Patch := none, PatchType := none } }) := by
  rw [serve_accepted env r body hbody hne hct, hdec]
  cases ar.Request <;> rfl

theorem serve_decode_failure_fail_closed_witness :
    serve sampleEnv (samplePost "/validate" [99]) = Except.ok (transmit sampleEnv
      { Request := none,
        Response := some
          { UID := (match ({} : AdmissionReview).Request with
                    | some req => req.UID
                    | none => ""),
            Allowed := false,
            Result := some { Message := "couldn't get version/kind; json parse error: unexpected end of JSON input", Reason := "" },
            Patch := none, PatchType := none } }) :=
  serve_decode_failure_fail_closed sampleEnv (samplePost "/validate" [99]) [99] {} _
    rfl (by decide) rfl (by decide)

/-- C17. For a non-empty body with content type `application/json` that decodes
without error, and a path other than exactly "/mutate" and "/validate", the
outgoing envelope has no response (and no request); no decider takes part: the
outcome does not depend on the workload codec, and there is no fault even when
the decoded envelope has no request. -/
theorem serve_unknown_path_no_response (env : Env) (r : HttpRequest) (body : Bytes)
    (ar : AdmissionReview)
    (hbody : r.Body = some (Except.ok body)) (hne : body ≠ [])
    (hct : r.ContentType = "application/json")
    (hdec : env.Decode body = (ar, none))
    (hpath : r.Path ≠ "/mutate" ∧ r.Path ≠ "/validate") :
    serve env r = Except.ok (transmit env { Request := none, Response := none }) := by
  rw [serve_accepted env r body hbody hne hct, hdec]
  simp only [if_neg hpath.1, if_neg hpath.2]

theorem serve_unknown_path_no_response_witness :
    serve sampleEnv (samplePost "/healthz" [13]) =
      Except.ok (transmit sampleEnv { Request := none, Response := none }) :=
  serve_unknown_path_no_response sampleEnv (samplePost "/healthz" [13]) [13] {}
    rfl (by decide) rfl rfl (by decide)

/-- C18. Sibling annotations are overwritten by the whole-map add.  For a Create
or Update request of kind "Deployment" whose body decodes to a workload owned by
a "UnitedDeployment" whose annotation map is non-empty and either lacks the
marker key or binds it to the empty string, the patch of `mutate` is a single
`add` at "/metadata/annotations"; applying it under JSON Patch semantics gives
the workload with annotation map exactly
{"deployment-create-by-uniteddeployment": "true"}, in which every other key is
unbound. -/
theorem mutate_add_overwrites_siblings (J : Json) (ar : AdmissionReview)
    (req : AdmissionRequest) (D : Deployment) (es : StrMap)
    (hreq : ar.Request = some req)
    (hop : req.Operation = Create ∨ req.Operation = Update)
    (hkind : req.Kind.Kind = "Deployment")
    (hbody : J.Unmarshal req.Object.Raw = Except.ok D)
    (hown : ∃ o ∈ D.ObjectMeta.OwnerReferences, o.Kind = "UnitedDeployment")
    (hann : D.ObjectMeta.Annotations = some es) (_hnonempty : es ≠ [])
    (hmark : entriesLookup es "deployment-create-by-uniteddeployment" = none ∨
      entriesLookup es "deployment-create-by-uniteddeployment" = some "") :
    mutate J ar = Except.ok
      { UID := "", Allowed := true, Result := none,
        Patch := some (J.Marshal
          [{ Op := "add", Path := "/metadata/annotations",
             Value := PatchValue.map [("deployment-create-by-uniteddeployment", "true")] }]),
        PatchType := some "JSONPatch" } ∧
    applyPatch
      [{ Op := "add", Path := "/metadata/annotations",
         Value := PatchValue.map [("deployment-create-by-uniteddeployment", "true")] }] D =
      some (D.withAnnotations (some [("deployment-create-by-uniteddeployment", "true")])) ∧
    ∀ k, k ≠ "deployment-create-by-uniteddeployment" →
      mapLookup (D.withAnnotations
        (some [("deployment-create-by-uniteddeployment", "true")])).ObjectMeta.Annotations k =
        none := by
  refine ⟨?_, ?_, ?_⟩
  · rw [mutate_owned J ar req D hreq hop hkind hbody hown, updateAnnotation_marker]
    have hidx : mapIndex D.ObjectMeta.Annotations admissionWebhookAnnotationMutateKey = "" := by
      rcases hmark with h | h <;>
        simp [mapIndex, mapLookup, hann, admissionWebhookAnnotationMutateKey, h]
    rw [if_pos (Or.inr hidx)]
    rfl
  · simp [applyPatch, applyOperation, resolveLocation_annotations]
  · intro k hk
    simp [Deployment.withAnnotations, mapLookup, entriesLookup, Ne.symm hk]

theorem mutate_add_overwrites_siblings_witness :
    mutate sampleJson (sampleReview "CREATE" "Deployment" [3]) = Except.ok
      { UID := "", Allowed := true, Result := none,
        Patch := some (sampleJson.Marshal
          [{ Op := "add", Path := "/metadata/annotations",
             Value := PatchValue.map [("deployment-create-by-uniteddeployment", "true")] }]),
        PatchType := some "JSONPatch" } ∧
    applyPatch
      [{ Op := "add", Path := "/metadata/annotations",
         Value := PatchValue.map [("deployment-create-by-uniteddeployment", "true")] }]
      ownedUnmarked =
      some (ownedUnmarked.withAnnotations
        (some [("deployment-create-by-uniteddeployment", "true")])) ∧
    ∀ k, k ≠ "deployment-create-by-uniteddeployment" →
      mapLookup (ownedUnmarked.withAnnotations
        (some [("deployment-create-by-uniteddeployment", "true")])).ObjectMeta.Annotations k =
        none :=
  mutate_add_overwrites_siblings sampleJson (sampleReview "CREATE" "Deployment" [3]) _
    ownedUnmarked [("team", "core")] rfl (Or.inl rfl) rfl rfl
    ⟨_, List.mem_cons_self _ _, rfl⟩ rfl (by decide) (Or.inl (by decide))

/-- C19. Validation ignores the lifecycle operation.  Two requests that agree on
kind name and raw body get the same decision from `validate`, whatever their
operation, UID, namespace and name; and a request of kind "Deployment" whose
operation is neither Create nor Update and whose body fails to decode with error
text `e` is denied by `validate` (allowed = false, message `e`) while `mutate`
allows it. -/
theorem validate_ignores_operation (J : Json) (ar₁ ar₂ : AdmissionReview)
    (req₁ req₂ : AdmissionRequest)
    (hreq₁ : ar₁.Request = some req₁) (hreq₂ : ar₂.Request = some req₂)
    (hkind : req₁.Kind.Kind = req₂.Kind.Kind)
    (hraw : req₁.Object.Raw = req₂.Object.Raw) :
    validate J ar₁ = validate J ar₂ ∧
    ∀ e, req₁.Operation ≠ Create → req₁.Operation ≠ Update →
      req₁.Kind.Kind = "Deployment" → J.Unmarshal req₁.Object.Raw = Except.error e →
      validate J ar₁ = Except.ok
        { UID := "", Allowed := false, Result := some { Message := e, Reason := "" },
          Patch := none, PatchType := none } ∧
      mutate J ar₁ = Except.ok
        { UID := "", Allowed := true, Result := none, Patch := none, PatchType := none } := by
  constructor
  · simp only [validate, hreq₁, hreq₂, hkind, hraw]
  · intro e hc hu hk herr
    constructor
    · simp [validate, hreq₁, hk, herr]
    · simp only [mutate, hreq₁]
      rw [if_pos ⟨hc, hu⟩]

theorem validate_ignores_operation_witness :
    validate sampleJson (sampleReview "DELETE" "Deployment" [9]) =
      validate sampleJson
        { Request := some { UID := "0c1d", Kind := { Kind := "Deployment" },
                            Operation := "CREATE", Namespace := "kube-system", Name := "api",
                            Object := { Raw := [9] } } } ∧
    validate sampleJson (sampleReview "DELETE" "Deployment" [9]) = Except.ok
      { UID := "", Allowed := false,
        Result := some { Message := "unexpected end of JSON input", Reason := "" },
        Patch := none, PatchType := none } ∧
    mutate sampleJson (sampleReview "DELETE" "Deployment" [9]) = Except.ok
      { UID := "", Allowed := true, Result := none, Patch := none, PatchType := none } :=
  have h := validate_ignores_operation sampleJson (sampleReview "DELETE" "Deployment" [9])
    { Request := some { UID := "0c1d", Kind := { Kind := "Deployment" },
                        Operation := "CREATE", Namespace := "kube-system", Name := "api",
                        Object := { Raw := [9] } } } _ _ rfl rfl rfl rfl
  ⟨h.1, h.2 "unexpected end of JSON input" (by decide) (by decide) rfl rfl⟩

/-- C20. The deciders are total only on envelopes that carry a request.  On every
review with a request present `mutate` and `validate` return a decision; on a
review without a request both fault; and for a non-empty body with content type
`application/json` that decodes without error to an envelope `ar` without a
request, `serve` on "/mutate" or "/validate" ends in that fault, with no call
on the response writer. -/
theorem deciders_fault_without_request (env : Env) (r : HttpRequest) (body : Bytes)
    (ar : AdmissionReview)
    (hbody : r.Body = some (Except.ok body)) (hne : body ≠ [])
    (hct : r.ContentType = "application/json")
    (hdec : env.Decode body = (ar, none)) (hreq : ar.Request = none)
    (hpath : r.Path = "/mutate" ∨ r.Path = "/validate") :
    (∀ (J : Json) (ar' : AdmissionReview), ar'.Request ≠ none →
      ∃ dm dv, mutate J ar' = Except.ok dm ∧ validate J ar' = Except.ok dv) ∧
    (∀ (J : Json) (ar' : AdmissionReview), ar'.Request = none →
      mutate J ar' = Except.error Fault.nilPointerDereference ∧
      validate J ar' = Except.error Fault.nilPointerDereference) ∧
    serve env r = Except.error Fault.nilPointerDereference := by
  refine ⟨?_, ?_, ?_⟩
  · intro J ar' h
    obtain ⟨req, hreq'⟩ := Option.ne_none_iff_exists'.1 h
    obtain ⟨dm, hm, -⟩ := mutate_total J ar' req hreq'
    obtain ⟨dv, hv, -⟩ := validate_total J ar' req hreq'
    exact ⟨dm, dv, hm, hv⟩
  · intro J ar' h
    simp [mutate, validate, h]
  · rw [serve_accepted env r body hbody hne hct, hdec]
    rcases hpath with hp | hp
    · simp [hp, mutate, hreq, Except.map]
    · simp [hp, validate, hreq, Except.map]

theorem deciders_fault_without_request_witness :
    (∀ (J : Json) (ar' : AdmissionReview), ar'.Request ≠ none →
      ∃ dm dv, mutate J ar' = Except.ok dm ∧ validate J ar' = Except.ok dv) ∧
    (∀ (J : Json) (ar' : AdmissionReview), ar'.Request = none →
      mutate J ar' = Except.error Fault.nilPointerDereference ∧
      validate J ar' = Except.error Fault.nilPointerDereference) ∧
    serve sampleEnv (samplePost "/mutate" [13]) = Except.error Fault.nilPointerDereference :=
  deciders_fault_without_request sampleEnv (samplePost "/mutate" [13]) [13] {}
    rfl (by decide) rfl rfl rfl (Or.inl rfl)

end Webhook
